import Mathlib

/-!
# Verification of the codecrafters-shell-rust specification

Shallow embedding of the shell's core (tokenizer, redirection extraction,
command resolution, single-command dispatch, pipeline orchestration) as
executable Lean definitions, translated from the Rust sources
(`src/parser.rs`, `src/lib.rs`, `src/builtins.rs`, `src/main.rs`), together
with theorems settling the specification's claims about them.
-/

set_option autoImplicit false

namespace Shell

/-- The single-quote character, written by code point to keep it out of
string literals. -/
def squote : Char := Char.ofNat 39

/-- The backslash character. -/
def bslash : Char := Char.ofNat 92

/-- The double-quote character. -/
def dquote : Char := Char.ofNat 34

/-- Characters that a backslash escapes inside a double-quoted region
(`parser.rs` lines 46-50): backslash, dollar, double quote, newline. -/
def dqEscape (c : Char) : Bool :=
  c = bslash || c = Char.ofNat 36 || c = dquote || c = Char.ofNat 10

/-- Control state of the tokenizer loop of `parser.rs::tokenize`, one
constructor per position in its nested loops: between tokens (outer loop,
skipping whitespace), inside an unquoted token (inner loop top), inside a
single-quoted region, inside a double-quoted region. The carried list is the
token accumulated so far (Rust's `arg`). -/
inductive TokState where
  | between : TokState
  | word : List Char → TokState
  | single : List Char → TokState
  | double : List Char → TokState

/-- One-pass embedding of `parser.rs::tokenize` (lines 13-82) as a state
machine over the character list.  Each step consumes the characters the Rust
loops consume:
* `between`: whitespace is skipped; any other character starts a token and
  enters the matching inner state with an empty accumulator;
* `word`: a single quote / double quote enters the quoted state; a backslash
  escapes the next character (a trailing backslash is dropped); whitespace
  ends the token; end of input ends the token;
* `single`: everything up to the next single quote is copied literally; an
  unterminated quote consumes to end of input;
* `double`: a double quote returns to `word`; a backslash followed by one of
  `dqEscape` collapses to the escaped character, otherwise the backslash is
  kept literally and the following character is reprocessed; an unterminated
  quote consumes to end of input.
The Rust code breaks the token loop at whitespace without consuming it and
lets the outer loop consume it; consuming it at the break point is the same
observable behaviour. -/
def tokRun : List Char → TokState → List (List Char)
  | [], .between => []
  | [], .word acc => [acc]
  | [], .single acc => [acc]
  | [], .double acc => [acc]
  | c :: cs, .between =>
    if c.isWhitespace then tokRun cs .between
    else if c = squote then tokRun cs (.single [])
    else if c = dquote then tokRun cs (.double [])
    else if c = bslash then
      match cs with
      | d :: ds => tokRun ds (.word [d])
      | [] => [[]]
    else tokRun cs (.word [c])
  | c :: cs, .word acc =>
    if c = squote then tokRun cs (.single acc)
    else if c = dquote then tokRun cs (.double acc)
    else if c = bslash then
      match cs with
      | d :: ds => tokRun ds (.word (acc ++ [d]))
      | [] => [acc]
    else if c.isWhitespace then acc :: tokRun cs .between
    else tokRun cs (.word (acc ++ [c]))
  | c :: cs, .single acc =>
    if c = squote then tokRun cs (.word acc)
    else tokRun cs (.single (acc ++ [c]))
  | c :: cs, .double acc =>
    if c = dquote then tokRun cs (.word acc)
    else if c = bslash then
      match cs with
      | d :: ds =>
        if dqEscape d then tokRun ds (.double (acc ++ [d]))
        else tokRun (d :: ds) (.double (acc ++ [bslash]))
      | [] => [acc ++ [bslash]]
    else tokRun cs (.double (acc ++ [c]))

/-- `parser.rs::tokenize`: split an input line into argument tokens. -/
def tokenize (input : String) : List String :=
  (tokRun input.data .between).map String.mk

/-- `ShellStatus` as declared in `lib.rs` lines 15-21: the result of a
command execution, either continue the shell or exit with a code. -/
inductive ShellStatus where
  | Continue : ShellStatus
  | Exit (code : Int) : ShellStatus
deriving DecidableEq

/-- The values actually constructed by `Builtin::execute` in `builtins.rs`:
besides `Continue` and `Exit` it returns `ShellStatus::LoadHistory(...)` at
line 103, although the `ShellStatus` declared in `lib.rs` has no such
variant. The embedding keeps the extra constructor so the function can be
translated as written. -/
inductive ExecStatus where
  | Continue : ExecStatus
  | Exit (code : Int) : ExecStatus
  | LoadHistory (lines : List String) : ExecStatus
deriving DecidableEq

/-- The builtin kinds of `builtins.rs` lines 8-15. `type` is a Lean keyword,
so that constructor is named `type'`. -/
inductive Builtin where
  | exit : Builtin
  | echo : Builtin
  | type' : Builtin
  | pwd : Builtin
  | cd : Builtin
  | history : Builtin
deriving DecidableEq

/-- `Builtin::from_str` (`builtins.rs` lines 17-31). -/
def builtinOf (s : String) : Option Builtin :=
  match s with
  | "exit" => some .exit
  | "echo" => some .echo
  | "type" => some .type'
  | "pwd" => some .pwd
  | "cd" => some .cd
  | "history" => some .history
  | _ => none

/-- Decimal digit accumulator: `some` of the value when every character is
a digit, `none` otherwise. -/
def digitsToNat? : List Char → Nat → Option Nat
  | [], acc => some acc
  | c :: cs, acc =>
    if c.isDigit then digitsToNat? cs (acc * 10 + (c.toNat - 48)) else none

/-- Rust `str::parse::<i32>`: an optional single sign followed by at least
one digit, all digits, rejected when out of the 32-bit range. -/
def parseI32 (s : String) : Option Int :=
  let core : Option Int :=
    match s.data with
    | [] => none
    | c :: cs =>
      if c = Char.ofNat 45 then
        match cs with
        | [] => none
        | _ => (digitsToNat? cs 0).map fun n => -(n : Int)
      else if c = Char.ofNat 43 then
        match cs with
        | [] => none
        | _ => (digitsToNat? cs 0).map Int.ofNat
      else (digitsToNat? (c :: cs) 0).map Int.ofNat
  core.bind fun n => if -(2 ^ 31) ≤ n ∧ n < 2 ^ 31 then some n else none

/-- `Builtin::execute` (`builtins.rs` lines 38-137), modulo the bytes written
to the given streams, which the result never depends on (all `writeln!`
results are discarded by the source).  `readFile` models `File::open` plus
`BufReader::lines` for the `history -r` branch: `some lines` when the file
opens, `none` when opening fails.  `exit` parses its first argument as an
`i32` defaulting to 0; `echo`, `type`, `pwd` and `cd` return `Continue` on
every path; `history -r <file>` returns `LoadHistory` with the file's lines
when the file opens, and `Continue` (with a diagnostic) otherwise. -/
def Builtin.execute (b : Builtin) (args : List String) (history : List String)
    (readFile : String → Option (List String)) : ExecStatus :=
  match b with
  | .exit => .Exit ((args.head?.bind parseI32).getD 0)
  | .echo => .Continue
  | .type' => .Continue
  | .pwd => .Continue
  | .cd => .Continue
  | .history =>
    if args.head? = some "-r" then
      match args[1]? with
      | some filepath =>
        match readFile filepath with
        | some lines => .LoadHistory lines
        | none => .Continue
      | none => .Continue
    else
      let _ := history
      .Continue

/-- Metadata of a filesystem entry as probed by `get_executable_path`
(`lib.rs` lines 117-131): whether the path is a regular file, and its
permission bits. -/
structure FileMeta where
  isFile : Bool
  mode : Nat
deriving DecidableEq

/-- The test of `lib.rs` lines 123-125: the path names a regular file whose
mode has at least one of the execute bits `0o111`. -/
def isExecEntry (fs : String → Option FileMeta) (p : String) : Bool :=
  match fs p with
  | some m => m.isFile && (m.mode &&& 0o111 != 0)
  | none => false

/-- The directory scan of `get_executable_path`: first directory, in listed
order, whose joined path passes `isExecEntry`. -/
def searchPath (fs : String → Option FileMeta) (command : String) :
    List String → Option String
  | [] => none
  | dir :: dirs =>
    let full := dir ++ "/" ++ command
    if isExecEntry fs full then some full else searchPath fs command dirs

/-- `lib.rs::get_executable_path`: `none` when the search-path variable is
unset, otherwise the first matching executable in the listed directories. -/
def get_executable_path (fs : String → Option FileMeta)
    (pathVar : Option (List String)) (command : String) : Option String :=
  match pathVar with
  | none => none
  | some dirs => searchPath fs command dirs

/-- The classification the spec calls `resolve`: `handle_command`
(`lib.rs` lines 71-84) first tries `command.parse::<Builtin>()` and only on
failure consults `get_executable_path`. -/
inductive Resolution where
  | builtin (b : Builtin) : Resolution
  | external (path : String) : Resolution
  | notFound : Resolution
deriving DecidableEq

/-- Command resolution as performed by `handle_command`: builtins first,
then the search-path scan, else not found. -/
def resolve (fs : String → Option FileMeta) (pathVar : Option (List String))
    (name : String) : Resolution :=
  match builtinOf name with
  | some b => .builtin b
  | none =>
    match get_executable_path fs pathVar name with
    | some p => .external p
    | none => .notFound

/-- Redirection open mode: `File::create` truncates, `OpenOptions::append`
appends. -/
inductive RedirMode where
  | truncate : RedirMode
  | append : RedirMode
deriving DecidableEq

/-- A redirection destination: path plus open mode. -/
structure FileTarget where
  path : String
  mode : RedirMode
deriving DecidableEq

/-- The argument-scanning loop of `handle_command` (`lib.rs` lines 33-69),
with the file-opening side effect dropped: routes the six operator tokens
and their following filename into the stdout/stderr targets (a later
operator for the same stream overwrites the earlier target, an operator with
no following token ends the loop), and every other token into `clean_args`
in order. -/
def extractGo : List String → List String → Option FileTarget → Option FileTarget →
    List String × Option FileTarget × Option FileTarget
  | [], acc, so, se => (acc, so, se)
  | a :: rest, acc, so, se =>
    if a = ">" ∨ a = "1>" then
      match rest with
      | [] => (acc, so, se)
      | f :: rest' => extractGo rest' acc (some ⟨f, .truncate⟩) se
    else if a = ">>" ∨ a = "1>>" then
      match rest with
      | [] => (acc, so, se)
      | f :: rest' => extractGo rest' acc (some ⟨f, .append⟩) se
    else if a = "2>" then
      match rest with
      | [] => (acc, so, se)
      | f :: rest' => extractGo rest' acc so (some ⟨f, .truncate⟩)
    else if a = "2>>" then
      match rest with
      | [] => (acc, so, se)
      | f :: rest' => extractGo rest' acc so (some ⟨f, .append⟩)
    else extractGo rest (acc ++ [a]) so se

/-- Redirection extraction (the spec's `extract`): clean arguments plus the
final stdout and stderr targets. -/
def extractRedirections (args : List String) :
    List String × Option FileTarget × Option FileTarget :=
  extractGo args [] none none

/-- The same argument-scanning loop with the `File::create(..).unwrap()` /
`OpenOptions..open(..).unwrap()` side effects kept: `openOk f m` tells
whether opening file `f` in mode `m` succeeds.  A failing open makes the
`unwrap` panic, modelled as `none`. -/
def extractOpensGo (openOk : String → RedirMode → Bool) :
    List String → List String → Option FileTarget → Option FileTarget →
    Option (List String × Option FileTarget × Option FileTarget)
  | [], acc, so, se => some (acc, so, se)
  | a :: rest, acc, so, se =>
    if a = ">" ∨ a = "1>" then
      match rest with
      | [] => some (acc, so, se)
      | f :: rest' =>
        if openOk f .truncate then extractOpensGo openOk rest' acc (some ⟨f, .truncate⟩) se
        else none
    else if a = ">>" ∨ a = "1>>" then
      match rest with
      | [] => some (acc, so, se)
      | f :: rest' =>
        if openOk f .append then extractOpensGo openOk rest' acc (some ⟨f, .append⟩) se
        else none
    else if a = "2>" then
      match rest with
      | [] => some (acc, so, se)
      | f :: rest' =>
        if openOk f .truncate then extractOpensGo openOk rest' acc so (some ⟨f, .truncate⟩)
        else none
    else if a = "2>>" then
      match rest with
      | [] => some (acc, so, se)
      | f :: rest' =>
        if openOk f .append then extractOpensGo openOk rest' acc so (some ⟨f, .append⟩)
        else none
    else extractOpensGo openOk rest (acc ++ [a]) so se

/-- Redirection extraction with open side effects, `none` meaning the
`unwrap` paniced. -/
def extractOpens (openOk : String → RedirMode → Bool) (args : List String) :
    Option (List String × Option FileTarget × Option FileTarget) :=
  extractOpensGo openOk args [] none none

/-- The environment oracles feeding the effectful parts of a dispatch:
whether a redirection target opens, what `history -r` reads, the filesystem
metadata and search-path variable behind `get_executable_path`, and whether
`Command::spawn` succeeds. -/
structure Oracles where
  openOk : String → RedirMode → Bool
  readFile : String → Option (List String)
  fs : String → Option FileMeta
  pathVar : Option (List String)
  spawnOk : Bool

/-- Outcome of `handle_command`: either the process paniced (an `unwrap` on
a failed redirection open) or it returned a status. -/
inductive DispatchOutcome where
  | crashed : DispatchOutcome
  | ok (status : ExecStatus) : DispatchOutcome
deriving DecidableEq

/-- `lib.rs::handle_command` (lines 27-112).  First the redirection scan
with its eager opens (a failed open panics); then builtin lookup (builtins
get the clean arguments, the given history and the read oracle); otherwise
path resolution and an external spawn attempt, which returns `Continue`
whether the spawn succeeds or fails (only a diagnostic differs), or a
`command not found` diagnostic and `Continue`.  The second component records
whether an external child process was spawned. -/
def handle_command (o : Oracles) (command : String) (args : List String)
    (history : List String) : DispatchOutcome × Bool :=
  match extractOpens o.openOk args with
  | none => (.crashed, false)
  | some (clean, _, _) =>
    match builtinOf command with
    | some b => (.ok (b.execute clean history o.readFile), false)
    | none =>
      match get_executable_path o.fs o.pathVar command with
      | some _ => (.ok .Continue, o.spawnOk)
      | none => (.ok .Continue, false)

/-- Success/failure oracles for a pipeline run: whether the `k`-th
`libc::pipe` call succeeds and whether launching stage `i` (the
`libc::fork` for a builtin, `Command::spawn` for an external) succeeds. -/
structure PipeEnv where
  pipeOk : Nat → Bool
  forkOk : Nat → Bool

/-- Read end of pipe `k`; pipe descriptors are numbered `2k`, `2k+1`. -/
def readFd (k : Nat) : Nat := 2 * k

/-- Write end of pipe `k`. -/
def writeFd (k : Nat) : Nat := 2 * k + 1

/-- The cleanup loops of `execute_pipeline` (`lib.rs` lines 199-202, 245-250
and 257-263): close both ends of pipes `0..m`, read end then write end, in
pipe order. -/
def closeAllPipes : Nat → List Nat
  | 0 => []
  | m + 1 => closeAllPipes m ++ [readFd m, writeFd m]

/-- The pipe-creation loop (`lib.rs` lines 193-207): `some k` when creating
pipe `k` fails after pipes `0..k` were created, `none` when all requested
pipes are created.  Called with `remaining` = number of pipes still to
create and `k` = index of the next pipe. -/
def createPipes (env : PipeEnv) : Nat → Nat → Option Nat
  | 0, _ => none
  | remaining + 1, k => if env.pipeOk k then createPipes env remaining (k + 1) else some k

/-- The parent-side closes performed while launching stage `i` of `n`
(`lib.rs` lines 347-352 for a forked builtin, and the drop of the
`Stdio::from_raw_fd` owners inside `spawn_external_in_pipeline` for an
external): the stage's stdin descriptor (read end of pipe `i-1`, absent for
the first stage) and stdout descriptor (write end of pipe `i`, absent for
the last stage).  Both the success and the failure branches close the same
descriptors. -/
def stageCloses (n i : Nat) : List Nat :=
  (if i = 0 then [] else [readFd (i - 1)]) ++ (if i = n - 1 then [] else [writeFd i])

/-- The stage-launch loop (`lib.rs` lines 212-255): on a launch failure the
code closes every pipe descriptor of every pipe (lines 245-250) and aborts;
on success it accumulates the per-stage closes.  Returns the parent close
events in order plus whether every stage launched. -/
def launchLoop (env : PipeEnv) (n : Nat) : Nat → Nat → List Nat → List Nat × Bool
  | 0, _, acc => (acc, true)
  | remaining + 1, i, acc =>
    if env.forkOk i then launchLoop env n remaining (i + 1) (acc ++ stageCloses n i)
    else (acc ++ stageCloses n i ++ closeAllPipes (n - 1), false)

/-- Observable result of a multi-stage pipeline run: how many pipes were
created, the parent's close events in order, and the returned status. -/
structure PipeRunResult where
  created : Nat
  closes : List Nat
  status : ShellStatus

/-- The N ≥ 2 part of `lib.rs::execute_pipeline` (lines 189-273): create
`n-1` pipes (closing the already-created ones and returning `Continue` on a
creation failure), launch the stages (closing everything and returning
`Continue` on a launch failure), then close both ends of every pipe and
reap.  Lists of length ≤ 1 never reach this code (the caller handles them
first); the placeholder result for them creates and closes nothing. -/
def runPipeline (env : PipeEnv) (cmds : List (String × List String)) : PipeRunResult :=
  let n := cmds.length
  if n ≤ 1 then ⟨0, [], .Continue⟩
  else
    let np := n - 1
    match createPipes env np 0 with
    | some k => ⟨k, closeAllPipes k, .Continue⟩
    | none =>
      match launchLoop env n n 0 [] with
      | (cl, true) => ⟨np, cl ++ closeAllPipes np, .Continue⟩
      | (cl, false) => ⟨np, cl, .Continue⟩

/-- Rust `str::trim` on a character list: drop whitespace from both ends. -/
def trimChars (l : List Char) : List Char :=
  ((l.dropWhile Char.isWhitespace).reverse.dropWhile Char.isWhitespace).reverse

/-- Rust `str::split(c)`: split at every occurrence of `c`, keeping empty
segments, always at least one segment. -/
def splitOnChar (c : Char) : List Char → List (List Char)
  | [] => [[]]
  | d :: ds =>
    if d = c then [] :: splitOnChar c ds
    else
      match splitOnChar c ds with
      | [] => [[d]]
      | s :: ss => (d :: s) :: ss

/-- The command-parsing loop of `execute_pipeline` (`lib.rs` lines 172-181):
tokenize each segment, fail (early `Continue`) on the first segment with no
tokens, else keep `(head, rest)` per segment. -/
def collectStages : List (List Char) → Option (List (String × List String))
  | [] => some []
  | p :: ps =>
    match tokRun p .between with
    | [] => none
    | t :: ts => (collectStages ps).map fun rest => (String.mk t, ts.map String.mk) :: rest

/-- The parsing phase of `execute_pipeline` (`lib.rs` lines 164-181): split
the raw input at every pipe character, trim each segment, then tokenize the
segments; `none` models the early `Continue` returns (no command list). -/
def parsePipelineCommands (input : List Char) : Option (List (String × List String)) :=
  let parts := (splitOnChar '|' input).map trimChars
  if parts = [] then none else collectStages parts

/-- Inclusion of the declared `ShellStatus` into the values `Builtin::execute`
constructs. -/
def statusToExec : ShellStatus → ExecStatus
  | .Continue => .Continue
  | .Exit code => .Exit code

/-- `lib.rs::execute_pipeline` at dispatch level: parse; a single parsed
command goes through `handle_command` with an empty history (lib.rs line
186); two or more stages run the pipe machinery, whose status is returned. -/
def execute_pipeline (o : Oracles) (env : PipeEnv) (input : List Char) : DispatchOutcome :=
  match parsePipelineCommands input with
  | none => .ok .Continue
  | some [] => .ok .Continue
  | some [(c, a)] => (handle_command o c a []).1
  | some cmds => .ok (statusToExec (runPipeline env cmds).status)

/-- What the host loop in `main.rs` (lines 239-256) does with a dispatch
result: `process::exit(code)` on `Exit`, next iteration on `Continue`; a
panic propagates (`crashed`); `unmatched` records that the source `match`
has no arm for the undeclared `LoadHistory` value. -/
inductive MainAction where
  | crashed : MainAction
  | exitProcess (code : Int) : MainAction
  | continued : MainAction
  | unmatched : MainAction
deriving DecidableEq

/-- Map a dispatch outcome to the host loop's action. -/
def outcomeToAction : DispatchOutcome → MainAction
  | .crashed => .crashed
  | .ok (.Exit code) => .exitProcess code
  | .ok .Continue => .continued
  | .ok (.LoadHistory _) => .unmatched

/-- Which dispatch path `main.rs` (lines 230-251) sends an input line to:
none for an all-whitespace line, the pipeline path when the trimmed line
contains a pipe character, the single-command path otherwise. -/
inductive MainPath where
  | skip : MainPath
  | pipeline : MainPath
  | single : MainPath
deriving DecidableEq

/-- The dispatch decision of `main.rs` on a collected buffer. -/
def mainPath (buffer : String) : MainPath :=
  let inp := trimChars buffer.data
  if inp = [] then .skip
  else if '|' ∈ inp then .pipeline
  else .single

/-- One iteration of the host loop of `main.rs` (lines 230-256) after a
buffer is collected: trim; skip empty lines; append the accepted line to the
history; dispatch to `execute_pipeline` when it contains a pipe character,
else tokenize and dispatch to `handle_command` with the updated history. -/
def mainDispatch (o : Oracles) (env : PipeEnv) (prev : List String)
    (buffer : String) : MainAction :=
  let inp := trimChars buffer.data
  if inp = [] then .continued
  else
    let hist := prev ++ [String.mk inp]
    if '|' ∈ inp then outcomeToAction (execute_pipeline o env inp)
    else
      match tokRun inp .between with
      | [] => .continued
      | t :: ts => outcomeToAction (handle_command o (String.mk t) (ts.map String.mk) hist).1

/-- The builtin capability invocations `(name, args, history)` performed
while dispatching one accepted line, assuming redirection opens and stage
launches succeed: the single-command path calls the builtin with the
redirection-cleaned arguments and the updated history (`main.rs` line 253,
`lib.rs` line 81); the pipeline single-command fallback passes an empty
history (`lib.rs` line 186); every forked builtin pipeline stage passes its
raw stage arguments and an empty history (`lib.rs` line 337). -/
def capabilityCalls (prev : List String) (buffer : String) :
    List (String × List String × List String) :=
  let inp := trimChars buffer.data
  if inp = [] then []
  else
    let hist := prev ++ [String.mk inp]
    if '|' ∈ inp then
      match parsePipelineCommands inp with
      | none => []
      | some [] => []
      | some [(c, a)] =>
        match builtinOf c with
        | some _ => [(c, (extractRedirections a).1, [])]
        | none => []
      | some cmds =>
        cmds.filterMap fun ca => (builtinOf ca.1).map fun _ => (ca.1, ca.2, ([] : List String))
    else
      match tokRun inp .between with
      | [] => []
      | t :: ts =>
        match builtinOf (String.mk t) with
        | some _ => [(String.mk t, (extractRedirections (ts.map String.mk)).1, hist)]
        | none => []

/-- The exit code a forked builtin pipeline child terminates with
(`lib.rs` lines 333-341): the builtin's `Exit` code, or 0 on `Continue`.
The source `match` has no arm for `LoadHistory` (the variant is absent from
the declared `ShellStatus`); the 0 here is an arbitrary placeholder for that
unreachable-by-compilation case. -/
def execChildExitCode : ExecStatus → Int
  | .Exit code => code
  | .Continue => 0
  | .LoadHistory _ => 0

/-- `lib.rs::execute_builtin_in_pipeline`, child side: a builtin stage runs
`Builtin::execute` with its raw arguments and an empty history (line 337)
and terminates the forked child with the resulting code; `none` for a
non-builtin name (the child would exit 1 without running anything). -/
def pipelineChildExit (readFile : String → Option (List String)) (cmd : String)
    (args : List String) : Option Int :=
  (builtinOf cmd).map fun b => execChildExitCode (b.execute args [] readFile)

/-- Wrap each token in single quotes and rejoin with single spaces
(claim C10's requoting), at character level. -/
def quoteJoinChars : List (List Char) → List Char
  | [] => []
  | [t] => squote :: t ++ [squote]
  | t :: ts => squote :: t ++ squote :: ' ' :: quoteJoinChars ts

/-- Wrap each token in single quotes and rejoin with single spaces. -/
def quoteJoin (ts : List String) : String :=
  String.mk (quoteJoinChars (ts.map String.data))

/-- An all-permissive oracle set (every open succeeds, no readable files, an
empty filesystem, no search-path variable, spawns succeed). -/
def oraclesTrivial : Oracles :=
  ⟨fun _ _ => true, fun _ => none, fun _ => none, none, true⟩

/-- A pipeline environment where every pipe creation and stage launch
succeeds. -/
def envAllOk : PipeEnv := ⟨fun _ => true, fun _ => true⟩

/-- The six redirection operator tokens recognized by `handle_command`. -/
def sixOps : List String := [">", "1>", ">>", "1>>", "2>", "2>>"]

/-- The four operator tokens that target stdout. -/
def stdoutOps : List String := [">", "1>", ">>", "1>>"]

/-- The open mode a stdout operator selects (`>`/`1>` truncate, `>>`/`1>>`
append). -/
def stdoutOpMode (op : String) : RedirMode :=
  if op = ">" ∨ op = "1>" then .truncate else .append

/-- The two operator tokens that target stderr. -/
def stderrOps : List String := ["2>", "2>>"]

/-- The open mode a stderr operator selects (`2>` truncates, `2>>`
appends). -/
def stderrOpMode (op : String) : RedirMode :=
  if op = "2>" then .truncate else .append

/-- A token list containing none of the six operator tokens. -/
def opFree (ts : List String) : Prop := ∀ t ∈ ts, t ∉ sixOps

/-- The claim C4 example line `echo 'a|b'`: a pipe character inside single
quotes. -/
def exC4 : String := "echo " ++ String.mk [squote] ++ "a|b" ++ String.mk [squote]

/-- The claim C10 example line `"don't"`: a single quote inside double
quotes, so the produced token contains a single-quote character. -/
def exC10 : String := "\"don" ++ String.mk [squote] ++ "t\""

/-- The token `don't`. -/
def dontTok : String := "don" ++ String.mk [squote] ++ "t"

/-- The claim C5 input line `echo 'a b' "c\"d"`, built by characters to keep
quote characters out of string literals. -/
def exC5 : String :=
  "echo " ++ String.mk [squote] ++ "a b" ++ String.mk [squote] ++ " \"c\\\"d\""

/-- Claim C5: tokenizing `echo 'a b' "c\"d"` yields exactly
`["echo", "a b", "c\"d"]`: the single-quoted region is copied literally and
the `\"` inside the double-quoted region collapses to a double quote. -/
theorem claim_C5_tokenize_example :
    tokenize exC5 = ["echo", "a b", "c\"d"] := by
  decide

/-- Claim C1 counterexample: with a redirection target that cannot be
created, dispatching `echo hi > out.txt` panics via the `unwrap` at
`lib.rs` line 37 — the dispatch does not return `Continue` as the claim
states. -/
theorem claim_C1_counterexample :
    handle_command ⟨fun _ _ => false, fun _ => none, fun _ => none, none, true⟩
        "echo" ["hi", ">", "out.txt"] [] = (.crashed, false) ∧
    (DispatchOutcome.crashed, false) ≠ ((DispatchOutcome.ok .Continue), false) := by
  constructor
  · decide
  · decide

/-- Claim C1 (amended): when a redirection target cannot be created or
opened, the failing command's setup aborts before any process is launched
(no external child is spawned), but by panicking through the `unwrap`: the
dispatch does not return `Continue`, it crashes the shell process. -/
theorem claim_C1_redirection_panic :
    ∀ (o : Oracles) (cmd : String) (args : List String) (history : List String),
      extractOpens o.openOk args = none →
      handle_command o cmd args history = (.crashed, false) := by
  intro o cmd args history h
  unfold handle_command
  rw [h]

/-- Claim C1 witness: a concrete failing open makes the concrete dispatch
crash without spawning anything. -/
theorem claim_C1_witness :
    handle_command ⟨fun _ _ => false, fun _ => none, fun _ => none, none, true⟩
        "cat" ["x", "2>>", "log"] [] = (.crashed, false) :=
  claim_C1_redirection_panic ⟨fun _ _ => false, fun _ => none, fun _ => none, none, true⟩
    "cat" ["x", "2>>", "log"] [] (by decide)

/-- Claim C2 (code bug): `Builtin::execute` on `history -r <file>` with a
readable file returns `ShellStatus::LoadHistory(lines)` (`builtins.rs` line
103), a value that is neither `Continue` nor `Exit` — and the variant is not
even declared in `lib.rs`'s `ShellStatus`. -/
theorem claim_C2_loadhistory_result :
    Builtin.execute .history ["-r", "h.txt"] []
        (fun s => if s = "h.txt" then some ["x"] else none) = .LoadHistory ["x"] ∧
    ExecStatus.LoadHistory ["x"] ≠ .Continue ∧
    ∀ code : Int, ExecStatus.LoadHistory ["x"] ≠ .Exit code := by
  refine ⟨by decide, by decide, ?_⟩
  intro code h
  cases h

/-- Claim C3 counterexample: dispatching the accepted line
`echo hi | echo yo` (the only line accepted so far) invokes the builtin
capability twice, both times with an empty history rather than the accepted
lines. -/
theorem claim_C3_counterexample :
    capabilityCalls [] "echo hi | echo yo" =
      [("echo", ["hi"], []), ("echo", ["yo"], [])] ∧
    ([] : List String) ≠ ["echo hi | echo yo"] := by
  constructor
  · decide
  · decide

/-- Claim C3 (amended): on the single-command path every builtin capability
invocation receives the full accepted history including the line being
executed, but every builtin invocation made through the pipeline path
(forked stages as well as the single-command fallback) receives the empty
history. -/
theorem claim_C3_history_views :
    ∀ (prev : List String) (buffer : String),
      (mainPath buffer = .single →
        ∀ call ∈ capabilityCalls prev buffer,
          call.2.2 = prev ++ [String.mk (trimChars buffer.data)]) ∧
      (mainPath buffer = .pipeline →
        ∀ call ∈ capabilityCalls prev buffer, call.2.2 = ([] : List String)) := by
  intro prev buffer
  by_cases h0 : trimChars buffer.data = []
  · constructor <;> intro hp <;> (exfalso; simp [mainPath, h0] at hp)
  · by_cases h1 : (Char.ofNat 124) ∈ trimChars buffer.data
    · constructor
      · intro hp
        exfalso
        simp [mainPath, h0, h1] at hp
      · intro _ call hc
        simp only [capabilityCalls, if_neg h0, if_pos h1] at hc
        rcases hpc : parsePipelineCommands (trimChars buffer.data) with _ | cmds
        · rw [hpc] at hc
          simp at hc
        · rcases cmds with _ | ⟨⟨c, a⟩, rest⟩
          · rw [hpc] at hc
            simp at hc
          · rcases rest with _ | ⟨ca2, rest2⟩
            · rw [hpc] at hc
              simp at hc
              rcases hb : builtinOf c with _ | b <;> rw [hb] at hc <;> simp at hc
              rw [hc]
            · rw [hpc] at hc
              simp only [List.mem_filterMap] at hc
              obtain ⟨ca, _, hmap⟩ := hc
              rcases hb : builtinOf ca.1 with _ | b <;> rw [hb] at hmap
              · cases hmap
              · simp only [Option.map_some'] at hmap
                injection hmap with h2
                rw [← h2]
    · constructor
      · intro _ call hc
        simp only [capabilityCalls, if_neg h0, if_neg h1] at hc
        rcases htok : tokRun (trimChars buffer.data) .between with _ | ⟨t, ts⟩
        · rw [htok] at hc
          simp at hc
        · rw [htok] at hc
          simp at hc
          rcases hb : builtinOf (String.mk t) with _ | b <;> rw [hb] at hc <;> simp at hc
          rw [hc]
      · intro hp
        exfalso
        simp [mainPath, h0, h1] at hp

/-- Claim C3 witness: a concrete single-command dispatch passes the full
accepted history, current line included, to the builtin. -/
theorem claim_C3_witness :
    ∀ call ∈ capabilityCalls ["pwd"] "history",
      call.2.2 = ["pwd"] ++ [String.mk (trimChars "history".data)] :=
  (claim_C3_history_views ["pwd"] "history").1 (by decide)

theorem splitOnChar_ne_nil (c : Char) (l : List Char) : splitOnChar c l ≠ [] := by
  cases l with
  | nil => simp [splitOnChar]
  | cons d ds =>
    simp only [splitOnChar]
    split
    · simp
    · split <;> simp

theorem splitOnChar_length (c : Char) (l : List Char) :
    (splitOnChar c l).length = l.count c + 1 := by
  induction l with
  | nil => simp [splitOnChar]
  | cons d ds ih =>
    simp only [splitOnChar]
    by_cases hd : d = c
    · rw [if_pos hd]
      simp only [List.length_cons, List.count_cons, ih]
      simp [hd]
    · rw [if_neg hd]
      rcases hsp : splitOnChar c ds with _ | ⟨s, ss⟩
      · exact absurd hsp (splitOnChar_ne_nil c ds)
      · rw [hsp] at ih
        simp only [List.length_cons, List.count_cons] at ih ⊢
        simp [hd]
        omega

/-- Claim C4: a trimmed accepted line containing a pipe character — even a
quoted one — is dispatched to the pipeline path; the pipeline parse splits
the raw line at every pipe occurrence (`count + 1` segments) before
tokenizing each segment; concretely `echo 'a|b'` parses into the two stages
`echo 'a` and `b'` although the plain tokenizer would have produced the
single literal argument `a|b`. -/
theorem claim_C4_pipe_dispatch :
    (∀ buffer : String, '|' ∈ trimChars buffer.data → mainPath buffer = .pipeline) ∧
    (∀ l : List Char, (splitOnChar '|' l).length = l.count '|' + 1) ∧
    parsePipelineCommands exC4.data = some [("echo", ["a"]), ("b", [])] ∧
    tokenize exC4 = ["echo", "a|b"] := by
  refine ⟨?_, fun l => splitOnChar_length '|' l, by decide, by decide⟩
  intro buffer h
  have h0 : trimChars buffer.data ≠ [] := by
    intro he
    rw [he] at h
    cases h
  simp [mainPath, h0, h]

/-- Claim C4 witness: the concrete quoted-pipe line goes to the pipeline
path. -/
theorem claim_C4_witness : mainPath exC4 = MainPath.pipeline :=
  claim_C4_pipe_dispatch.1 exC4 (by decide)

theorem extractGo_opFree (ts : List String) (h : opFree ts) :
    ∀ (rest acc : List String) (so se : Option FileTarget),
      extractGo (ts ++ rest) acc so se = extractGo rest (acc ++ ts) so se := by
  induction ts with
  | nil => intro rest acc so se; simp
  | cons t ts ih =>
    intro rest acc so se
    have ht : t ∉ sixOps := h t (List.mem_cons_self t ts)
    have h' : opFree ts := fun x hx => h x (List.mem_cons_of_mem t hx)
    have n1 : ¬(t = ">" ∨ t = "1>") := by rintro (rfl | rfl) <;> simp [sixOps] at ht
    have n2 : ¬(t = ">>" ∨ t = "1>>") := by rintro (rfl | rfl) <;> simp [sixOps] at ht
    have n3 : ¬(t = "2>") := by rintro rfl; simp [sixOps] at ht
    have n4 : ¬(t = "2>>") := by rintro rfl; simp [sixOps] at ht
    rw [List.cons_append]
    rw [extractGo.eq_def]
    simp only [if_neg n1, if_neg n2, if_neg n3, if_neg n4]
    rw [ih h' rest (acc ++ [t]) so se]
    simp

theorem extractGo_stdoutOp (op : String) (hop : op ∈ stdoutOps) (f : String)
    (rest acc : List String) (so se : Option FileTarget) :
    extractGo (op :: f :: rest) acc so se =
      extractGo rest acc (some ⟨f, stdoutOpMode op⟩) se := by
  have hmem : op = ">" ∨ op = "1>" ∨ op = ">>" ∨ op = "1>>" := by
    simpa [stdoutOps] using hop
  rcases hmem with rfl | rfl | rfl | rfl <;> (rw [extractGo.eq_def]; simp [stdoutOpMode])

theorem extractGo_stderrOp (op : String) (hop : op ∈ stderrOps) (f : String)
    (rest acc : List String) (so se : Option FileTarget) :
    extractGo (op :: f :: rest) acc so se =
      extractGo rest acc so (some ⟨f, stderrOpMode op⟩) := by
  have hmem : op = "2>" ∨ op = "2>>" := by
    simpa [stderrOps] using hop
  rcases hmem with rfl | rfl <;> (rw [extractGo.eq_def]; simp [stderrOpMode])

/-- Claim C6: redirection extraction (a) on the concrete example
`echo hi > out.txt` yields clean arguments `echo hi` and a truncating stdout
target `out.txt`; (b) passes operator-free token lists through unchanged in
order with no targets; (c) silently drops a trailing operator with no
following token; (d) consumes the token after each stdout operator as its
filename, and when two stdout operators appear the later one determines the
stdout target; (e) likewise consumes the token after each stderr operator
(`2>`, `2>>`) as its filename and lets the later of two stderr operators
determine the stderr target; (f) a stdout operator and a stderr operator
each consume their own filename and set their own stream's target
independently. -/
theorem claim_C6_extract :
    extractRedirections ["echo", "hi", ">", "out.txt"] =
      (["echo", "hi"], some ⟨"out.txt", .truncate⟩, none) ∧
    (∀ ts, opFree ts → extractRedirections ts = (ts, none, none)) ∧
    (∀ ts op, opFree ts → op ∈ sixOps →
      extractRedirections (ts ++ [op]) = (ts, none, none)) ∧
    (∀ ts1 ts2 f1 f2 op1 op2, opFree ts1 → opFree ts2 →
      op1 ∈ stdoutOps → op2 ∈ stdoutOps →
      extractRedirections (ts1 ++ op1 :: f1 :: (ts2 ++ [op2, f2])) =
        (ts1 ++ ts2, some ⟨f2, stdoutOpMode op2⟩, none)) ∧
    (∀ ts1 ts2 f1 f2 op1 op2, opFree ts1 → opFree ts2 →
      op1 ∈ stderrOps → op2 ∈ stderrOps →
      extractRedirections (ts1 ++ op1 :: f1 :: (ts2 ++ [op2, f2])) =
        (ts1 ++ ts2, none, some ⟨f2, stderrOpMode op2⟩)) ∧
    (∀ ts1 ts2 f1 f2 sop eop, opFree ts1 → opFree ts2 →
      sop ∈ stdoutOps → eop ∈ stderrOps →
      extractRedirections (ts1 ++ sop :: f1 :: (ts2 ++ [eop, f2])) =
        (ts1 ++ ts2, some ⟨f1, stdoutOpMode sop⟩, some ⟨f2, stderrOpMode eop⟩)) := by
  refine ⟨by decide, ?_, ?_, ?_, ?_, ?_⟩
  · intro ts h
    have := extractGo_opFree ts h [] [] none none
    simpa [extractRedirections] using this
  · intro ts op h hop
    have heq := extractGo_opFree ts h [op] [] none none
    rw [extractRedirections, heq]
    have hmem : op = ">" ∨ op = "1>" ∨ op = ">>" ∨ op = "1>>" ∨ op = "2>" ∨ op = "2>>" := by
      simpa [sixOps] using hop
    rcases hmem with rfl | rfl | rfl | rfl | rfl | rfl <;> (rw [extractGo.eq_def]; simp)
  · intro ts1 ts2 f1 f2 op1 op2 h1 h2 hop1 hop2
    rw [extractRedirections, extractGo_opFree ts1 h1, List.nil_append,
      extractGo_stdoutOp op1 hop1, extractGo_opFree ts2 h2,
      extractGo_stdoutOp op2 hop2]
    rw [extractGo.eq_def]
  · intro ts1 ts2 f1 f2 op1 op2 h1 h2 hop1 hop2
    rw [extractRedirections, extractGo_opFree ts1 h1, List.nil_append,
      extractGo_stderrOp op1 hop1, extractGo_opFree ts2 h2,
      extractGo_stderrOp op2 hop2]
    rw [extractGo.eq_def]
  · intro ts1 ts2 f1 f2 sop eop h1 h2 hsop heop
    rw [extractRedirections, extractGo_opFree ts1 h1, List.nil_append,
      extractGo_stdoutOp sop hsop, extractGo_opFree ts2 h2,
      extractGo_stderrOp eop heop]
    rw [extractGo.eq_def]

/-- Claim C6 witness: concrete lists where the later of two stdout
operators wins with append mode, the later of two stderr operators wins
with append mode, and a mixed pair sets both targets, the clean arguments
keeping their order throughout. -/
theorem claim_C6_witness :
    extractRedirections ["a", ">", "f1", "b", "1>>", "f2"] =
      (["a", "b"], some ⟨"f2", RedirMode.append⟩, none) ∧
    extractRedirections ["a", "2>", "e1", "b", "2>>", "e2"] =
      (["a", "b"], none, some ⟨"e2", RedirMode.append⟩) ∧
    extractRedirections ["a", "1>", "f1", "b", "2>>", "e2"] =
      (["a", "b"], some ⟨"f1", RedirMode.truncate⟩, some ⟨"e2", RedirMode.append⟩) := by
  refine ⟨?_, ?_, ?_⟩
  · have h := claim_C6_extract.2.2.2.1 ["a"] ["b"] "f1" "f2" ">" "1>>"
      (by unfold opFree; decide) (by unfold opFree; decide) (by decide) (by decide)
    simpa [stdoutOpMode] using h
  · have h := claim_C6_extract.2.2.2.2.1 ["a"] ["b"] "e1" "e2" "2>" "2>>"
      (by unfold opFree; decide) (by unfold opFree; decide) (by decide) (by decide)
    simpa [stderrOpMode] using h
  · have h := claim_C6_extract.2.2.2.2.2 ["a"] ["b"] "f1" "e2" "1>" "2>>"
      (by unfold opFree; decide) (by unfold opFree; decide) (by decide) (by decide)
    simpa [stdoutOpMode, stderrOpMode] using h

theorem searchPath_none (fs : String → Option FileMeta) (name : String)
    (dirs : List String)
    (h : ∀ d ∈ dirs, isExecEntry fs (d ++ "/" ++ name) = false) :
    searchPath fs name dirs = none := by
  induction dirs with
  | nil => rfl
  | cons d ds ih =>
    rw [searchPath.eq_def]
    simp only []
    rw [if_neg]
    · exact ih fun x hx => h x (List.mem_cons_of_mem d hx)
    · simp [h d (List.mem_cons_self d ds)]

theorem searchPath_some (fs : String → Option FileMeta) (name : String)
    (dirs : List String) (p : String) (h : searchPath fs name dirs = some p) :
    ∃ pre d post, dirs = pre ++ d :: post ∧ p = d ++ "/" ++ name ∧
      isExecEntry fs p = true ∧
      ∀ d' ∈ pre, isExecEntry fs (d' ++ "/" ++ name) = false := by
  induction dirs with
  | nil => cases h
  | cons d ds ih =>
    rw [searchPath.eq_def] at h
    simp only [] at h
    by_cases hd : isExecEntry fs (d ++ "/" ++ name) = true
    · rw [if_pos hd] at h
      injection h with h
      exact ⟨[], d, ds, rfl, h.symm, h ▸ hd, by intro x hx; cases hx⟩
    · rw [if_neg hd] at h
      obtain ⟨pre, d', post, hdirs, hp, hex, hpre⟩ := ih h
      refine ⟨d :: pre, d', post, by rw [hdirs]; rfl, hp, hex, ?_⟩
      intro x hx
      rcases List.mem_cons.mp hx with rfl | hx'
      · exact Bool.eq_false_iff.mpr fun hc => hd (hc ▸ rfl)
      · exact hpre x hx'

/-- Claim C7: command resolution (a) classifies every name in the fixed
builtin set as that builtin, shadowing same-named externals; (b) returns
`NotFound` for a non-builtin when the search-path variable is unset; (c)
returns `NotFound` for a non-builtin when no listed directory holds a
matching executable entry; (d) when it returns `External p`, `p` is the
joined path of the first directory in listed order whose entry matches, all
earlier directories failing the test; (e) it never returns `External` for a
path that is not a regular file with at least one execute-permission bit. -/
theorem claim_C7_resolve :
    (∀ (fs : String → Option FileMeta) (pv : Option (List String)) (name : String)
        (b : Builtin), builtinOf name = some b → resolve fs pv name = .builtin b) ∧
    (∀ (fs : String → Option FileMeta) (name : String),
        builtinOf name = none → resolve fs none name = .notFound) ∧
    (∀ (fs : String → Option FileMeta) (dirs : List String) (name : String),
        builtinOf name = none →
        (∀ d ∈ dirs, isExecEntry fs (d ++ "/" ++ name) = false) →
        resolve fs (some dirs) name = .notFound) ∧
    (∀ (fs : String → Option FileMeta) (dirs : List String) (name p : String),
        resolve fs (some dirs) name = .external p →
        ∃ pre d post, dirs = pre ++ d :: post ∧ p = d ++ "/" ++ name ∧
          isExecEntry fs p = true ∧
          ∀ d' ∈ pre, isExecEntry fs (d' ++ "/" ++ name) = false) ∧
    (∀ (fs : String → Option FileMeta) (pv : Option (List String)) (name p : String),
        resolve fs pv name = .external p →
        ∃ m, fs p = some m ∧ m.isFile = true ∧ m.mode &&& 0o111 ≠ 0) := by
  have hext : ∀ (fs : String → Option FileMeta) (pv : Option (List String))
      (name p : String), resolve fs pv name = .external p →
      isExecEntry fs p = true := by
    intro fs pv name p h
    unfold resolve at h
    rcases hb : builtinOf name with _ | b <;> rw [hb] at h
    · rcases hg : get_executable_path fs pv name with _ | q <;> rw [hg] at h
      · cases h
      · injection h with h'
        subst h'
        rcases pv with _ | dirs
        · cases hg
        · obtain ⟨_, _, _, _, _, hex, _⟩ :=
            searchPath_some fs name dirs q hg
          exact hex
    · cases h
  refine ⟨?_, ?_, ?_, ?_, ?_⟩
  · intro fs pv name b hb
    unfold resolve
    rw [hb]
  · intro fs name hb
    unfold resolve
    rw [hb]
    rfl
  · intro fs dirs name hb hdirs
    have hg : get_executable_path fs (some dirs) name = none := by
      unfold get_executable_path
      exact searchPath_none fs name dirs hdirs
    unfold resolve
    rw [hb, hg]
  · intro fs dirs name p h
    unfold resolve at h
    rcases hb : builtinOf name with _ | b <;> rw [hb] at h
    · rcases hg : get_executable_path fs (some dirs) name with _ | q <;> rw [hg] at h
      · cases h
      · injection h with h'
        subst h'
        exact searchPath_some fs name dirs q hg
    · cases h
  · intro fs pv name p h
    have hex := hext fs pv name p h
    unfold isExecEntry at hex
    rcases hfs : fs p with _ | m <;> rw [hfs] at hex
    · cases hex
    · simp only [Bool.and_eq_true, bne_iff_ne, ne_eq] at hex
      exact ⟨m, rfl, hex.1, hex.2⟩

/-- Claim C7 witness: concrete resolutions — a builtin name shadows the
search path, and a concrete two-directory scan returns the first matching
executable. -/
theorem claim_C7_witness :
    resolve (fun _ => none) (some ["/bin"]) "echo" = Resolution.builtin Builtin.echo :=
  claim_C7_resolve.1 (fun _ => none) (some ["/bin"]) "echo" Builtin.echo rfl

/-- Claim C8: dispatching the single command `exit 7` makes the host loop
exit the shell process with code 7; a pipeline of two or more dispatched
stages always returns `Continue` to the caller regardless of the stage
outcomes; and an `exit 7` pipeline stage only terminates its own forked
child, which exits with code 7. -/
theorem claim_C8_exit_propagation :
    (∀ (o : Oracles) (env : PipeEnv) (prev : List String),
      mainDispatch o env prev "exit 7" = .exitProcess 7) ∧
    (∀ (env : PipeEnv) (cmds : List (String × List String)),
      2 ≤ cmds.length → (runPipeline env cmds).status = .Continue) ∧
    (∀ readFile : String → Option (List String),
      pipelineChildExit readFile "exit" ["7"] = some 7) := by
  refine ⟨?_, ?_, ?_⟩
  · intro o env prev
    rfl
  · intro env cmds h
    simp only [runPipeline]
    rw [if_neg (by omega : ¬ cmds.length ≤ 1)]
    rcases hc : createPipes env (cmds.length - 1) 0 with _ | k
    · rcases hl : launchLoop env cmds.length cmds.length 0 [] with ⟨cl, b⟩
      cases b <;> rfl
    · rfl
  · intro readFile
    rfl

/-- Claim C8 witness: a concrete two-stage pipeline run returns `Continue`. -/
theorem claim_C8_witness :
    (runPipeline envAllOk [("echo", ["a"]), ("echo", ["b"])]).status = ShellStatus.Continue :=
  claim_C8_exit_propagation.2.1 envAllOk [("echo", ["a"]), ("echo", ["b"])] (by decide)

theorem closeAllPipes_count (m fd : Nat) :
    (closeAllPipes m).count fd = if fd < 2 * m then 1 else 0 := by
  induction m with
  | zero => simp [closeAllPipes]
  | succ k ih =>
    simp only [closeAllPipes, List.count_append, ih, readFd, writeFd,
      List.count_cons, List.count_nil]
    simp only [beq_iff_eq]
    split_ifs <;> omega

theorem count_suffix_ge (pre suf : List Nat) (fd : Nat) :
    suf.count fd ≤ (pre ++ suf).count fd := by
  rw [List.count_append]
  omega

theorem launchLoop_false_suffix (env : PipeEnv) (n : Nat) :
    ∀ (r i : Nat) (acc : List Nat),
      (launchLoop env n r i acc).2 = false →
      ∃ pre, (launchLoop env n r i acc).1 = pre ++ closeAllPipes (n - 1) := by
  intro r
  induction r with
  | zero =>
    intro i acc h
    simp [launchLoop] at h
  | succ r ih =>
    intro i acc h
    simp only [launchLoop] at h ⊢
    by_cases hf : env.forkOk i = true
    · rw [if_pos hf] at h ⊢
      exact ih (i + 1) (acc ++ stageCloses n i) h
    · rw [if_neg hf] at h ⊢
      exact ⟨acc ++ stageCloses n i, rfl⟩

/-- Claim C9 counterexample: in a fully successful two-stage pipeline run
the parent closes descriptor 0 (the read end of the only pipe, which was
handed to stage 1 and closed at launch) twice — once at stage launch and
once in the final cleanup loop — not exactly once as the claim states. -/
theorem claim_C9_counterexample :
    (runPipeline envAllOk [("echo", ["a"]), ("echo", ["b"])]).created = 1 ∧
    (runPipeline envAllOk [("echo", ["a"]), ("echo", ["b"])]).closes.count 0 = 2 ∧
    (2 : Nat) ≠ 1 := by
  exact ⟨by decide, by decide, by decide⟩

/-- Claim C9 (amended): after every pipeline run with two or more stages —
successful or aborted on a pipe-creation or stage-launch failure — zero
pipe descriptors remain open in the parent: every descriptor it created is
closed at least once.  (Not exactly once: descriptors handed to a launched
stage are closed again by the final cleanup loop, a redundant double
close.) -/
theorem claim_C9_descriptor_cleanup :
    ∀ (env : PipeEnv) (cmds : List (String × List String)),
      2 ≤ cmds.length →
      ∀ fd, fd < 2 * (runPipeline env cmds).created →
        1 ≤ (runPipeline env cmds).closes.count fd := by
  intro env cmds h fd
  simp only [runPipeline]
  rw [if_neg (by omega : ¬ cmds.length ≤ 1)]
  rcases hc : createPipes env (cmds.length - 1) 0 with _ | k
  · rcases hl : launchLoop env cmds.length cmds.length 0 [] with ⟨cl, b⟩
    cases b
    · intro hfd
      have hfd' : fd < 2 * (cmds.length - 1) := hfd
      obtain ⟨pre, hpre⟩ :=
        launchLoop_false_suffix env cmds.length cmds.length 0 [] (by rw [hl])
      rw [hl] at hpre
      have hpre' : cl = pre ++ closeAllPipes (cmds.length - 1) := hpre
      show 1 ≤ cl.count fd
      rw [hpre']
      have hcnt := closeAllPipes_count (cmds.length - 1) fd
      rw [if_pos hfd'] at hcnt
      have := count_suffix_ge pre (closeAllPipes (cmds.length - 1)) fd
      omega
    · intro hfd
      have hfd' : fd < 2 * (cmds.length - 1) := hfd
      show 1 ≤ (cl ++ closeAllPipes (cmds.length - 1)).count fd
      have hcnt := closeAllPipes_count (cmds.length - 1) fd
      rw [if_pos hfd'] at hcnt
      have := count_suffix_ge cl (closeAllPipes (cmds.length - 1)) fd
      omega
  · intro hfd
    have hfd' : fd < 2 * k := hfd
    show 1 ≤ (closeAllPipes k).count fd
    have hcnt := closeAllPipes_count k fd
    rw [if_pos hfd'] at hcnt
    omega

/-- Claim C9 witness: in a concrete three-stage run every created
descriptor, here descriptor 2, is closed at least once. -/
theorem claim_C9_witness :
    1 ≤ (runPipeline envAllOk [("a", []), ("b", []), ("c", [])]).closes.count 2 :=
  claim_C9_descriptor_cleanup envAllOk [("a", []), ("b", []), ("c", [])]
    (by decide) 2 (by decide)

theorem tokRun_single_append (t : List Char) (h : squote ∉ t) :
    ∀ (rest acc : List Char),
      tokRun (t ++ squote :: rest) (.single acc) = tokRun rest (.word (acc ++ t)) := by
  induction t with
  | nil =>
    intro rest acc
    rw [List.nil_append, tokRun.eq_def]
    simp
  | cons c t ih =>
    intro rest acc
    have hc : ¬(c = squote) := fun hcc => h (hcc ▸ List.mem_cons_self c t)
    have h' : squote ∉ t := fun hx => h (List.mem_cons_of_mem c hx)
    rw [List.cons_append, tokRun.eq_def]
    simp only [if_neg hc]
    rw [ih h' rest (acc ++ [c])]
    simp

theorem tokRun_quoteJoin :
    ∀ ts : List (List Char), (∀ t ∈ ts, squote ∉ t) →
      tokRun (quoteJoinChars ts) .between = ts := by
  intro ts
  induction ts with
  | nil => intro _; rfl
  | cons t ts ih =>
    intro h
    have ht : squote ∉ t := h t (List.mem_cons_self t ts)
    have h' : ∀ x ∈ ts, squote ∉ x := fun x hx => h x (List.mem_cons_of_mem t hx)
    have hwsq : ¬(squote.isWhitespace = true) := by decide
    cases ts with
    | nil =>
      show tokRun (squote :: (t ++ [squote])) .between = [t]
      rw [tokRun.eq_def]
      simp only [if_neg hwsq, if_pos rfl]
      rw [show ([squote] : List Char) = squote :: [] from rfl,
        tokRun_single_append t ht [] []]
      simp only [List.nil_append]
      rfl
    | cons t2 ts2 =>
      show tokRun (squote :: (t ++ squote :: (Char.ofNat 32) :: quoteJoinChars (t2 :: ts2)))
          .between = t :: t2 :: ts2
      rw [tokRun.eq_def]
      simp only [if_neg hwsq, if_pos rfl]
      rw [tokRun_single_append t ht ((Char.ofNat 32) :: quoteJoinChars (t2 :: ts2)) []]
      rw [tokRun.eq_def]
      have e1 : ¬((Char.ofNat 32) = squote) := by decide
      have e2 : ¬((Char.ofNat 32) = dquote) := by decide
      have e3 : ¬((Char.ofNat 32) = bslash) := by decide
      have e4 : (Char.ofNat 32).isWhitespace = true := by decide
      simp only [if_neg e1, if_neg e2, if_neg e3, if_pos e4]
      rw [ih h']
      simp

/-- Claim C10 counterexample: the line `"don't"` tokenizes to the single
token `don't`; wrapping it in single quotes and re-tokenizing yields `dont`
instead, because the tokenizer ends the single-quoted region at the quote
inside the token. -/
theorem claim_C10_counterexample :
    tokenize exC10 = [dontTok] ∧
    tokenize (quoteJoin (tokenize exC10)) = ["dont"] ∧
    ["dont"] ≠ [dontTok] :=
  ⟨by decide, by decide, by decide⟩

/-- Claim C10 (amended): for every input line none of whose tokens contains
a single-quote character, wrapping each token of `tokenize` in single
quotes, rejoining with single spaces, and re-tokenizing reproduces the
original token sequence. -/
theorem claim_C10_quoted_roundtrip :
    ∀ line : String, (∀ t ∈ tokenize line, squote ∉ t.data) →
      tokenize (quoteJoin (tokenize line)) = tokenize line := by
  intro line h
  have hyp : ∀ t ∈ tokRun line.data .between, squote ∉ t := by
    intro t ht
    exact h (String.mk t) (List.mem_map_of_mem String.mk ht)
  have hdata : (tokenize line).map String.data = tokRun line.data .between := by
    rw [tokenize, List.map_map]
    induction tokRun line.data .between with
    | nil => rfl
    | cons a l ihl =>
      rw [List.map_cons, ihl]
      rfl
  have key := tokRun_quoteJoin (tokRun line.data .between) hyp
  show (tokRun (quoteJoinChars ((tokenize line).map String.data)) .between).map String.mk
      = tokenize line
  rw [hdata, key]
  rfl

/-- Claim C10 witness: the round-trip holds on a concrete quote-free line. -/
theorem claim_C10_witness :
    tokenize (quoteJoin (tokenize "echo hi")) = tokenize "echo hi" :=
  claim_C10_quoted_roundtrip "echo hi" (by decide)

end Shell
